import Mathlib

/-!
Shallow embedding of `solidity/python/constants/optimize/PrintFunctionLog.py`.

The script builds two constant tables for a fixed-point natural-logarithm
routine and prints the corresponding source lines:

* `hiTerms`: for `n` in `0 .. LOG_NUM_OF_HI_TERMS`, with
  `cur = Decimal(LOG_MAX_HI_TERM_VAL)/2**n`, it appends
  `HiTerm(int(FIXED_ONE*cur), int(FIXED_ONE*cur.exp()))`.
* `loTerms`: seeded with `[LoTerm(FIXED_ONE*2, FIXED_ONE*2)]`, then a
  `while True` loop appends `LoTerm(val//(2*n+1), val)` with
  `n = len(loTerms)`, `val = FIXED_ONE*(2*n+2)`, accepting the candidate
  exactly when the external oracle `log` reports a strictly larger score,
  and stopping otherwise.
* emission: hex-formatted text lines computed from the two tables.

Modelling conventions:
* Python arbitrary-precision decimals (`Decimal` at 100 significant digits)
  are idealised as exact rationals `ℚ`; the library exponential
  `Decimal.exp` is an explicit function parameter `dexp : ℚ → ℚ`, since its
  numeric method is external to the script.
* The external precision oracle `log` (imported from `functions`, not part
  of the sources) and the configuration constants `PRECISION`,
  `LOG_NUM_OF_HI_TERMS`, `LOG_MAX_HI_TERM_VAL` (imported from `constants`)
  are parameters, as the specification directs ("treated as external
  collaborators"); the oracle returns an opaque linearly ordered score.
* Python `int(...)` on a decimal truncates toward zero: `pyInt`.
  Python `//` on integers is floor division: `Int.fdiv`.
* The unbounded `while True` loop is embedded with explicit fuel returning
  `Option`; `none` means the fuel was exhausted before the stopping
  condition fired.  Theorems below show the result is independent of the
  fuel once the stopping condition is reachable.
* A Python runtime error (e.g. `max()` over an empty sequence at the
  emission stage) is modelled as `none`; since the script prints nothing
  before that point, `none` also models "no output at all".
-/

/-- Entry of the high-order range-reduction table (`HiTerm = namedtuple('HiTerm','val,exp')`). -/
structure HiTerm where
  val : ℤ
  exp : ℤ
deriving DecidableEq

instance : Inhabited HiTerm := ⟨⟨0, 0⟩⟩

/-- Entry of the low-order rational-coefficient table (`LoTerm = namedtuple('LoTerm','num,den')`). -/
structure LoTerm where
  num : ℤ
  den : ℤ
deriving DecidableEq

instance : Inhabited LoTerm := ⟨⟨0, 0⟩⟩

/-- Python `int(...)` applied to an exact numeric value: truncation toward zero. -/
def pyInt (q : ℚ) : ℤ := if 0 ≤ q then ⌊q⌋ else ⌈q⌉

/-- The `hiTerms` construction loop:
`for n in range(LOG_NUM_OF_HI_TERMS+1): cur = Decimal(LOG_MAX_HI_TERM_VAL)/2**n;`
`hiTerms.append(HiTerm(int(FIXED_ONE*cur), int(FIXED_ONE*cur.exp())))`. -/
def hiTermsBuild (dexp : ℚ → ℚ) (ONE : ℤ) (maxHiVal : ℚ) (numHiTerms : ℕ) : List HiTerm :=
  (List.range (numHiTerms + 1)).foldl
    (fun acc n =>
      let cur : ℚ := maxHiVal / 2 ^ n
      let val : ℤ := pyInt (ONE * cur)
      let ex : ℤ := pyInt (ONE * dexp cur)
      acc ++ [⟨val, ex⟩]) []

/-- Closed form of the `n`-th entry produced by the `hiTerms` loop. -/
def hiTermAt (dexp : ℚ → ℚ) (ONE : ℤ) (maxHiVal : ℚ) (n : ℕ) : HiTerm :=
  ⟨pyInt (ONE * (maxHiVal / 2 ^ n)), pyInt (ONE * dexp (maxHiVal / 2 ^ n))⟩

/-- The seed low-term table: `loTerms = [LoTerm(FIXED_ONE*2, FIXED_ONE*2)]`. -/
def loSeed (ONE : ℤ) : List LoTerm := [⟨ONE * 2, ONE * 2⟩]

/-- One candidate-construction step of the search loop:
`n = len(loTerms); val = FIXED_ONE*(2*n+2); loTerms + [LoTerm(val//(2*n+1), val)]`. -/
def loTermNext (ONE : ℤ) (loTerms : List LoTerm) : List LoTerm :=
  let n : ℕ := loTerms.length
  let val : ℤ := ONE * (2 * (n : ℤ) + 2)
  loTerms ++ [⟨Int.fdiv val (2 * (n : ℤ) + 1), val⟩]

/-- The `while True` search loop of the script, with explicit fuel.  State:
the accepted table `loTerms` and its score `res`.  Each round builds the
candidate, scores it, accepts on strict improvement (`res < resNext`) and
otherwise stops, returning the accepted table. -/
def lowTermSearchAux {S : Type} [LinearOrder S] (ONE : ℤ) (score : List LoTerm → S) :
    ℕ → List LoTerm → S → Option (List LoTerm)
  | 0, _, _ => none
  | fuel + 1, loTerms, res =>
    let loTermsNext := loTermNext ONE loTerms
    let resNext := score loTermsNext
    if res < resNext then lowTermSearchAux ONE score fuel loTermsNext resNext
    else some loTerms

/-- The low-term search.  This is lines 28–39 of the script:
seed table, initial score, then the `while True` loop. -/
def lowTermSearch {S : Type} [LinearOrder S] (ONE : ℤ) (score : List LoTerm → S)
    (fuel : ℕ) : Option (List LoTerm) :=
  lowTermSearchAux ONE score fuel (loSeed ONE) (score (loSeed ONE))

/-- Closed form of the `k`-th low term (0-indexed): `val = ONE*(2*k+2)`,
entry `(val // (2*k+1), val)`.  At `k = 0` this is the seed `(2*ONE, 2*ONE)`. -/
def loTermAt (ONE : ℤ) (k : ℕ) : LoTerm :=
  ⟨Int.fdiv (ONE * (2 * (k : ℤ) + 2)) (2 * (k : ℤ) + 1), ONE * (2 * (k : ℤ) + 2)⟩

/-- The unique table of `m` low terms the search can pass through. -/
def loTable (ONE : ℤ) (m : ℕ) : List LoTerm := (List.range m).map (loTermAt ONE)

/-- Lowercase hexadecimal digit string of a natural number (no prefix). -/
def hexDigits (n : ℕ) : String := String.mk (Nat.toDigits 16 n)

/-- Python `'{:x}'.format(i)`: signed lowercase hex without `0x`. -/
def hexSigned (i : ℤ) : String := (if i < 0 then "-" else "") ++ hexDigits i.natAbs

/-- Python `hex(i)`: `0x`-prefixed lowercase hex, sign in front. -/
def pyHex (i : ℤ) : String := (if i < 0 then "-0x" else "0x") ++ hexDigits i.natAbs

/-- `len(hex(i))`, used for the column widths. -/
def pyHexLen (i : ℤ) : ℕ := (pyHex i).length

/-- Python `'{:#0{w}x}'.format(i)`: `0x`-prefixed hex, zero-padded between
the prefix and the digits so the full literal is at least `w` characters. -/
def pyHexPad (i : ℤ) (w : ℕ) : String :=
  let ds := hexDigits i.natAbs
  let pre : String := (if i < 0 then "-" else "") ++ "0x"
  pre ++ String.mk (List.replicate (w - (pre.length + ds.length)) '0') ++ ds

/-- Python `max(list)`: fails (raises) on the empty list, modelled as `none`. -/
def pyMax : List ℕ → Option ℕ
  | [] => none
  | x :: xs => some (xs.foldl max x)

/-- Line 48: `'        assert(x < 0x{:x});'.format(hiTerms[0].exp)`. -/
def upperLine (h0 : HiTerm) : String :=
  "        assert(x < 0x" ++ hexSigned h0.exp ++ ");"

/-- Line 50: one conditional range-reduction line per `HiTerm` after the first. -/
def condLine (hvM heM : ℕ) (t : HiTerm) : String :=
  "        if (x >= " ++ pyHexPad t.exp heM ++ ") \x7bres += " ++ pyHexPad t.val hvM ++
    "; x = x * FIXED_ONE / " ++ pyHexPad t.exp heM ++ ";\x7d"

/-- Line 56: accumulation line for every `LoTerm` except the last. -/
def accLine (lnM ldM : ℕ) (t : LoTerm) : String :=
  "        res += z * (" ++ pyHexPad t.num lnM ++ " - y) / " ++ pyHexPad t.den ldM ++
    "; z = z * w / FIXED_ONE;"

/-- Line 57: accumulation line for the last `LoTerm`. -/
def accLineLast (lnM ldM : ℕ) (t : LoTerm) : String :=
  "        res += z * (" ++ pyHexPad t.num lnM ++ " - y) / " ++ pyHexPad t.den ldM ++ ";"

/-- The emission phase, lines 42–57: column widths (failing on an empty
column, like Python `max([])`), then the printed lines in order.  Python
raises before the first `print` when a width is undefined, so `none`
faithfully models "no output lines at all". -/
def emit (hiTerms : List HiTerm) (loTerms : List LoTerm) : Option (List String) :=
  match hiTerms with
  | [] => none
  | h0 :: hiRest =>
    match pyMax (hiRest.map fun t => pyHexLen t.val),
        pyMax (hiRest.map fun t => pyHexLen t.exp),
        pyMax (loTerms.map fun t => pyHexLen t.num),
        pyMax (loTerms.map fun t => pyHexLen t.den),
        loTerms.getLast? with
    | some hvM, some heM, some lnM, some ldM, some lastT =>
      some (upperLine h0 ::
        (hiRest.map (condLine hvM heM) ++
          "" :: "        assert(x >= FIXED_ONE);" ::
          "        z = y = x - FIXED_ONE;" ::
          "        w = y * y / FIXED_ONE;" ::
          (loTerms.dropLast.map (accLine lnM ldM) ++ [accLineLast lnM ldM lastT])))
    | _, _, _, _, _ => none

/-- The named configuration constants imported from `constants`. -/
structure Config where
  PRECISION : ℕ
  LOG_NUM_OF_HI_TERMS : ℕ
  LOG_MAX_HI_TERM_VAL : ℚ
deriving DecidableEq

/-- The values the calibration computes before emission. -/
structure CalibResult where
  hiTerms : List HiTerm
  maxVal : ℤ
  loTerms : Option (List LoTerm)

/-- Lines 8–39 of the script: `FIXED_ONE = 1 << PRECISION`, the `hiTerms`
loop, `MAX_VAL = hiTerms[0].exp - 1`, and the low-term search with the
oracle `lg` scoring `lg MAX_VAL hiTerms loTerms FIXED_ONE`. -/
def calibrate {S : Type} [LinearOrder S] (dexp : ℚ → ℚ)
    (lg : ℤ → List HiTerm → List LoTerm → ℤ → S) (fuel : ℕ) (cfg : Config) : CalibResult :=
  let FIXED_ONE : ℤ := 2 ^ cfg.PRECISION
  let hiTerms := hiTermsBuild dexp FIXED_ONE cfg.LOG_MAX_HI_TERM_VAL cfg.LOG_NUM_OF_HI_TERMS
  let MAX_VAL : ℤ := hiTerms.headI.exp - 1
  { hiTerms := hiTerms
    maxVal := MAX_VAL
    loTerms := lowTermSearch FIXED_ONE (fun lo => lg MAX_VAL hiTerms lo FIXED_ONE) fuel }

/-- The whole script: calibration followed by emission. -/
def program {S : Type} [LinearOrder S] (dexp : ℚ → ℚ)
    (lg : ℤ → List HiTerm → List LoTerm → ℤ → S) (fuel : ℕ) (cfg : Config) :
    Option (List String) :=
  let r := calibrate dexp lg fuel cfg
  match r.loTerms with
  | none => none
  | some lo => emit r.hiTerms lo

/-- A concrete stand-in for the decimal exponential used to refute universal
strict monotonicity of the stored `exp` fields: it returns nine-digit decimal
approximations of `e^1`, `e^(1/2)` and `e^(1/4)` (each provably within `1/100`
of the mathematical exponential, far closer than fixed-point truncation at
`ONE = 1` can distinguish). -/
def dexpC4 (q : ℚ) : ℚ :=
  if q = 1 then 2718281828 / 1000000000
  else if q = 1 / 2 then 1648721270 / 1000000000
  else if q = 1 / 4 then 1284025416 / 1000000000
  else 1

/-! ### Basic lemmas about `pyInt` (Python truncating integer conversion) -/

lemma pyInt_of_nonneg {q : ℚ} (h : 0 ≤ q) : pyInt q = ⌊q⌋ := if_pos h

lemma pyInt_eq_int {q : ℚ} {z : ℤ} (h0 : 0 ≤ z) (h1 : (z : ℚ) ≤ q) (h2 : q < (z : ℚ) + 1) :
    pyInt q = z := by
  have hq : (0 : ℚ) ≤ q := le_trans (by exact_mod_cast h0) h1
  rw [pyInt_of_nonneg hq]
  exact Int.floor_eq_iff.mpr ⟨h1, h2⟩

lemma pyInt_mono : Monotone pyInt := by
  intro a b hab
  unfold pyInt
  by_cases ha : 0 ≤ a
  · rw [if_pos ha, if_pos (le_trans ha hab)]
    exact Int.floor_mono hab
  · rw [if_neg ha]
    by_cases hb : 0 ≤ b
    · rw [if_pos hb]
      exact le_trans (Int.ceil_le.mpr (by exact_mod_cast le_of_not_le ha))
        (Int.le_floor.mpr (by exact_mod_cast hb))
    · rw [if_neg hb]
      exact Int.ceil_mono hab

lemma fdiv_eq_pyInt {a b : ℤ} (ha : 0 ≤ a) (hb : 0 < b) :
    Int.fdiv a b = pyInt ((a : ℚ) / (b : ℚ)) := by
  have hq : (0 : ℚ) ≤ (a : ℚ) / (b : ℚ) := by positivity
  have hcast : ((b.toNat : ℕ) : ℚ) = ((b : ℤ) : ℚ) := by
    rw [← Int.cast_natCast, Int.toNat_of_nonneg (le_of_lt hb)]
  rw [pyInt_of_nonneg hq, Int.fdiv_eq_ediv _ (le_of_lt hb), ← hcast,
    Rat.floor_intCast_div_natCast, Int.toNat_of_nonneg (le_of_lt hb)]

/-! ### Closed form of the high-term construction loop -/

lemma foldl_append_singleton {α β : Type} (f : β → α) :
    ∀ (l : List β) (acc : List α),
      l.foldl (fun a b => a ++ [f b]) acc = acc ++ l.map f := by
  intro l
  induction l with
  | nil => intro acc; simp
  | cons x xs ih => intro acc; simp [ih]

lemma hiTermsBuild_eq_map (dexp : ℚ → ℚ) (ONE : ℤ) (maxHiVal : ℚ) (numHiTerms : ℕ) :
    hiTermsBuild dexp ONE maxHiVal numHiTerms
      = (List.range (numHiTerms + 1)).map (hiTermAt dexp ONE maxHiVal) := by
  unfold hiTermsBuild
  exact foldl_append_singleton (hiTermAt dexp ONE maxHiVal) (List.range (numHiTerms + 1)) []

lemma hiTermsBuild_length (dexp : ℚ → ℚ) (ONE : ℤ) (maxHiVal : ℚ) (numHiTerms : ℕ) :
    (hiTermsBuild dexp ONE maxHiVal numHiTerms).length = numHiTerms + 1 := by
  rw [hiTermsBuild_eq_map]; simp

lemma hiTermsBuild_get (dexp : ℚ → ℚ) (ONE : ℤ) (maxHiVal : ℚ) (numHiTerms : ℕ) (n : ℕ)
    (hn : n < (hiTermsBuild dexp ONE maxHiVal numHiTerms).length) :
    (hiTermsBuild dexp ONE maxHiVal numHiTerms).get ⟨n, hn⟩ = hiTermAt dexp ONE maxHiVal n := by
  have hn' : n < numHiTerms + 1 := by
    rw [hiTermsBuild_length] at hn; exact hn
  simp [hiTermsBuild_eq_map, List.get_eq_getElem]

/-! ### Closed form of the low-term tables -/

lemma loTable_length (ONE : ℤ) (m : ℕ) : (loTable ONE m).length = m := by
  simp [loTable]

lemma loTable_succ (ONE : ℤ) (m : ℕ) :
    loTable ONE (m + 1) = loTable ONE m ++ [loTermAt ONE m] := by
  simp [loTable, List.range_succ]

lemma loTable_one (ONE : ℤ) : loTable ONE 1 = loSeed ONE := by
  have h : loTermAt ONE 0 = ⟨ONE * 2, ONE * 2⟩ := by
    unfold loTermAt
    norm_num [Int.fdiv_one]
  simp [loTable, loSeed, List.range_succ, h]

lemma loTable_get (ONE : ℤ) (m i : ℕ) (hi : i < (loTable ONE m).length) :
    (loTable ONE m).get ⟨i, hi⟩ = loTermAt ONE i := by
  simp [loTable, List.get_eq_getElem]

lemma loTermNext_loTable (ONE : ℤ) (m : ℕ) :
    loTermNext ONE (loTable ONE m) = loTable ONE (m + 1) := by
  unfold loTermNext
  simp only [loTable_length]
  rw [loTable_succ]
  rfl

/-! ### Behaviour of the search loop -/

lemma lowTermSearchAux_reach {S : Type} [LinearOrder S] (ONE : ℤ) (score : List LoTerm → S)
    (K : ℕ) (hstop : ¬ score (loTable ONE K) < score (loTable ONE (K + 1))) :
    ∀ fuel m, m ≤ K →
      (∀ j, m ≤ j → j < K → score (loTable ONE j) < score (loTable ONE (j + 1))) →
      K + 1 ≤ fuel + m →
      lowTermSearchAux ONE score fuel (loTable ONE m) (score (loTable ONE m))
        = some (loTable ONE K) := by
  intro fuel
  induction fuel with
  | zero => intro m hmK himp hf; omega
  | succ fuel ih =>
    intro m hmK himp hf
    rw [lowTermSearchAux]
    simp only [loTermNext_loTable]
    by_cases hm : m = K
    · subst hm
      rw [if_neg hstop]
    · have hmK' : m < K := lt_of_le_of_ne hmK hm
      rw [if_pos (himp m le_rfl hmK')]
      exact ih (m + 1) hmK' (fun j hj1 hj2 => himp j (by omega) hj2) (by omega)

lemma lowTermSearch_eq_of_stop {S : Type} [LinearOrder S] (ONE : ℤ) (score : List LoTerm → S)
    (K fuel : ℕ) (hK : 1 ≤ K)
    (himp : ∀ j, 1 ≤ j → j < K → score (loTable ONE j) < score (loTable ONE (j + 1)))
    (hstop : ¬ score (loTable ONE K) < score (loTable ONE (K + 1)))
    (hfuel : K ≤ fuel) :
    lowTermSearch ONE score fuel = some (loTable ONE K) := by
  unfold lowTermSearch
  rw [← loTable_one]
  exact lowTermSearchAux_reach ONE score K hstop fuel 1 hK himp (by omega)

lemma lowTermSearchAux_closed {S : Type} [LinearOrder S] (ONE : ℤ) (score : List LoTerm → S) :
    ∀ fuel m res tbl,
      lowTermSearchAux ONE score fuel (loTable ONE m) res = some tbl →
      ∃ M, m ≤ M ∧ tbl = loTable ONE M := by
  intro fuel
  induction fuel with
  | zero => intro m res tbl h; simp [lowTermSearchAux] at h
  | succ fuel ih =>
    intro m res tbl h
    rw [lowTermSearchAux] at h
    simp only [loTermNext_loTable] at h
    by_cases hc : res < score (loTable ONE (m + 1))
    · rw [if_pos hc] at h
      obtain ⟨M, hM, rfl⟩ := ih (m + 1) _ _ h
      exact ⟨M, by omega, rfl⟩
    · rw [if_neg hc] at h
      exact ⟨m, le_rfl, (Option.some.inj h).symm⟩

lemma lowTermSearch_closed {S : Type} [LinearOrder S] (ONE : ℤ) (score : List LoTerm → S)
    (fuel : ℕ) (tbl : List LoTerm) (h : lowTermSearch ONE score fuel = some tbl) :
    ∃ M, 1 ≤ M ∧ tbl = loTable ONE M := by
  unfold lowTermSearch at h
  rw [← loTable_one] at h
  exact lowTermSearchAux_closed ONE score fuel 1 _ tbl h

lemma exists_stop_of_bounded (ONE : ℤ) (score : List LoTerm → ℤ) (B : ℤ)
    (hB : ∀ m, score (loTable ONE m) ≤ B) :
    ∃ K, 1 ≤ K ∧ ¬ score (loTable ONE K) < score (loTable ONE (K + 1)) := by
  by_contra hno
  push_neg at hno
  have grow : ∀ m : ℕ, score (loTable ONE 1) + m ≤ score (loTable ONE (m + 1)) := by
    intro m
    induction m with
    | zero => simp
    | succ m ih =>
      have hstep := hno (m + 1) (by omega)
      push_cast
      push_cast at ih
      omega
  have h1 := grow ((B - score (loTable ONE 1)).toNat + 1)
  have h2 := hB ((B - score (loTable ONE 1)).toNat + 1 + 1)
  omega

/-! ### Claim theorems -/

/-- C1: for every (deterministic) oracle, when the scores strictly improve up
to table size `K` and the candidate of size `K + 1` is the first that fails to
strictly improve, the search returns the accepted table of size `K` — exactly
one term shorter than the first failing candidate; in particular (`K = 1`) a
non-improving very first growth step returns the one-term seed unchanged, so
the result always has length at least 1. -/
theorem lowTermSearch_stops_one_short {S : Type} [LinearOrder S] (ONE : ℤ)
    (score : List LoTerm → S) (K fuel : ℕ) (hK : 1 ≤ K)
    (himp : ∀ j, 1 ≤ j → j < K → score (loTable ONE j) < score (loTable ONE (j + 1)))
    (hstop : ¬ score (loTable ONE K) < score (loTable ONE (K + 1)))
    (hfuel : K ≤ fuel) :
    lowTermSearch ONE score fuel = some (loTable ONE K) ∧
      (loTable ONE K).length + 1 = (loTable ONE (K + 1)).length ∧
      1 ≤ (loTable ONE K).length ∧
      (K = 1 → lowTermSearch ONE score fuel = some (loSeed ONE)) := by
  have hmain := lowTermSearch_eq_of_stop ONE score K fuel hK himp hstop hfuel
  refine ⟨hmain, by simp [loTable_length], by simp [loTable_length]; omega, ?_⟩
  intro h1
  rw [hmain, h1, loTable_one]

/-- Witness for C1, demonstrating the boundary case: an oracle whose score
strictly decreases on the very first growth step makes the search return the
one-term seed table unchanged. -/
theorem lowTermSearch_stops_one_short_witness :
    lowTermSearch 1 (fun l => -(l.length : ℤ)) 1 = some (loTable 1 1) ∧
      (loTable 1 1).length + 1 = (loTable 1 (1 + 1)).length ∧
      1 ≤ (loTable 1 1).length ∧
      (1 = 1 → lowTermSearch 1 (fun l => -(l.length : ℤ)) 1 = some (loSeed 1)) :=
  lowTermSearch_stops_one_short 1 (fun l => -(l.length : ℤ)) 1 1 le_rfl
    (fun _ hj1 hj2 => absurd (hj1.trans_lt hj2) (lt_irrefl 1))
    (by decide) le_rfl

/-- C2: every table the search can return is the closed-form table: entry 0 is
the seed `(2*ONE, 2*ONE)` and entry `i` is
`(ONE*(2*i+2) // (2*i+1), ONE*(2*i+2))`; the search only ever appends one such
term at a time, so the result is fully determined by its length. -/
theorem lowTermSearch_result_closed_form {S : Type} [LinearOrder S] (ONE : ℤ)
    (score : List LoTerm → S) (fuel : ℕ) (tbl : List LoTerm)
    (h : lowTermSearch ONE score fuel = some tbl) :
    1 ≤ tbl.length ∧
      loTermAt ONE 0 = ⟨2 * ONE, 2 * ONE⟩ ∧
      ∀ i (hi : i < tbl.length), tbl.get ⟨i, hi⟩ = loTermAt ONE i := by
  obtain ⟨M, hM, rfl⟩ := lowTermSearch_closed ONE score fuel tbl h
  refine ⟨by simpa [loTable_length] using hM, ?_, ?_⟩
  · unfold loTermAt
    norm_num [Int.fdiv_one, mul_comm]
  · intro i hi
    exact loTable_get ONE M i hi

/-- Witness for C2 at a constant oracle: the search stops at once and returns
the seed, whose entries satisfy the closed form. -/
theorem lowTermSearch_result_closed_form_witness :
    1 ≤ ([⟨2, 2⟩] : List LoTerm).length ∧
      loTermAt 1 0 = ⟨2 * 1, 2 * 1⟩ ∧
      ∀ i (hi : i < ([⟨2, 2⟩] : List LoTerm).length),
        ([⟨2, 2⟩] : List LoTerm).get ⟨i, hi⟩ = loTermAt 1 i :=
  lowTermSearch_result_closed_form 1 (fun _ => (0 : ℤ)) 1 [⟨2, 2⟩] (by decide)

/-- C6: the search loop terminates whenever the oracle's scores along the
closed-form candidate tables are bounded above (so the integer score sequence
eventually fails to strictly increase): some finite fuel suffices, and any
larger fuel returns the same table, reflecting that the Python loop has no
iteration cap yet halts. -/
theorem lowTermSearch_terminates (ONE : ℤ) (score : List LoTerm → ℤ) (B : ℤ)
    (hB : ∀ m, score (loTable ONE m) ≤ B) :
    ∃ fuel tbl, lowTermSearch ONE score fuel = some tbl ∧
      ∀ fuel2, fuel ≤ fuel2 → lowTermSearch ONE score fuel2 = some tbl := by
  classical
  obtain ⟨K0, hK0⟩ := exists_stop_of_bounded ONE score B hB
  have hP : ∃ K, 1 ≤ K ∧ ¬ score (loTable ONE K) < score (loTable ONE (K + 1)) := ⟨K0, hK0⟩
  obtain ⟨hK1, hKstop⟩ := Nat.find_spec hP
  have himp : ∀ j, 1 ≤ j → j < Nat.find hP →
      score (loTable ONE j) < score (loTable ONE (j + 1)) := by
    intro j hj1 hjK
    by_contra hnot
    exact Nat.find_min hP hjK ⟨hj1, hnot⟩
  exact ⟨Nat.find hP, loTable ONE (Nat.find hP),
    lowTermSearch_eq_of_stop ONE score (Nat.find hP) (Nat.find hP) hK1 himp hKstop le_rfl,
    fun fuel2 hf2 => lowTermSearch_eq_of_stop ONE score (Nat.find hP) fuel2 hK1 himp hKstop hf2⟩

/-- Witness for C6 at the constant-zero oracle, bounded by 0. -/
theorem lowTermSearch_terminates_witness :
    ∃ fuel tbl, lowTermSearch 1 (fun _ => (0 : ℤ)) fuel = some tbl ∧
      ∀ fuel2, fuel ≤ fuel2 → lowTermSearch 1 (fun _ => (0 : ℤ)) fuel2 = some tbl :=
  lowTermSearch_terminates 1 (fun _ => (0 : ℤ)) 0 (fun _ => le_rfl)

/-- C3: for any positive `maxHiVal` and any `numHiTerms`, the high-term
builder produces exactly `numHiTerms + 1` entries, and entry `n` stores the
truncating integer conversions of `ONE * (maxHiVal / 2^n)` and of
`ONE * dexp (maxHiVal / 2^n)`, where `dexp` is the (100-significant-digit
decimal) exponential the script calls and the quotient `maxHiVal / 2^n` is
exact rational arithmetic. -/
theorem hiTermsBuild_table_spec (dexp : ℚ → ℚ) (ONE : ℤ) (maxHiVal : ℚ)
    (numHiTerms : ℕ) (_hpos : 0 < maxHiVal) :
    (hiTermsBuild dexp ONE maxHiVal numHiTerms).length = numHiTerms + 1 ∧
      ∀ n (hn : n < (hiTermsBuild dexp ONE maxHiVal numHiTerms).length),
        (hiTermsBuild dexp ONE maxHiVal numHiTerms).get ⟨n, hn⟩
          = ⟨pyInt (ONE * (maxHiVal / 2 ^ n)), pyInt (ONE * dexp (maxHiVal / 2 ^ n))⟩ :=
  ⟨hiTermsBuild_length dexp ONE maxHiVal numHiTerms,
    fun n hn => hiTermsBuild_get dexp ONE maxHiVal numHiTerms n hn⟩

/-- Witness for C3 at `dexp = const 1`, `ONE = 1`, `maxHiVal = 1`,
`numHiTerms = 0`. -/
theorem hiTermsBuild_table_spec_witness :
    (hiTermsBuild (fun _ => 1) 1 1 0).length = 0 + 1 ∧
      ∀ n (hn : n < (hiTermsBuild (fun _ => 1) 1 1 0).length),
        (hiTermsBuild (fun _ => 1) 1 1 0).get ⟨n, hn⟩
          = ⟨pyInt (1 * ((1 : ℚ) / 2 ^ n)), pyInt (1 * (fun _ => (1 : ℚ)) ((1 : ℚ) / 2 ^ n))⟩ :=
  hiTermsBuild_table_spec (fun _ => 1) 1 1 0 (by norm_num)

/-- C4 (amended): the stored `exp` fields are weakly decreasing in the table
index for every monotone exponential approximation, nonnegative `ONE` and
positive `maxHiVal`; strict decrease can fail for small `ONE` because the
fixed-point truncation can collapse neighbouring entries (see the
counterexample). -/
theorem hiTermsBuild_exp_weakly_decreasing (dexp : ℚ → ℚ) (ONE : ℤ) (maxHiVal : ℚ)
    (numHiTerms : ℕ) (hONE : 0 ≤ ONE) (hpos : 0 < maxHiVal) (hmono : Monotone dexp) :
    ∀ i j (hi : i < (hiTermsBuild dexp ONE maxHiVal numHiTerms).length)
      (hj : j < (hiTermsBuild dexp ONE maxHiVal numHiTerms).length), i ≤ j →
      ((hiTermsBuild dexp ONE maxHiVal numHiTerms).get ⟨j, hj⟩).exp
        ≤ ((hiTermsBuild dexp ONE maxHiVal numHiTerms).get ⟨i, hi⟩).exp := by
  intro i j hi hj hij
  rw [hiTermsBuild_get, hiTermsBuild_get]
  show pyInt (ONE * dexp (maxHiVal / 2 ^ j)) ≤ pyInt (ONE * dexp (maxHiVal / 2 ^ i))
  apply pyInt_mono
  apply mul_le_mul_of_nonneg_left _ (by exact_mod_cast hONE)
  apply hmono
  apply div_le_div_of_nonneg_left (le_of_lt hpos) (pow_pos two_pos i)
  exact pow_le_pow_right₀ one_le_two hij

/-- Witness for C4 (amended) at the identity in place of the exponential. -/
theorem hiTermsBuild_exp_weakly_decreasing_witness :
    (hiTermsBuild (fun q => q) 1 1 1).length = 1 + 1 ∧
      ∀ i j (hi : i < (hiTermsBuild (fun q => q) 1 1 1).length)
        (hj : j < (hiTermsBuild (fun q => q) 1 1 1).length), i ≤ j →
        ((hiTermsBuild (fun q => q) 1 1 1).get ⟨j, hj⟩).exp
          ≤ ((hiTermsBuild (fun q => q) 1 1 1).get ⟨i, hi⟩).exp :=
  ⟨hiTermsBuild_length (fun q => q) 1 1 1,
    hiTermsBuild_exp_weakly_decreasing (fun q => q) 1 1 1 (by norm_num) (by norm_num)
      (fun _ _ h => h)⟩

/-- C5: every stored fixed-point integer is the truncating integer conversion
of `ONE` times the corresponding mathematical value: `val` and `exp` of each
`HiTerm`, and `num` and `den` of each `LoTerm` the search can return
(`den = ONE*(2k+2)` exactly and `num = int(ONE*(2k+2) / (2k+1))`). -/
theorem tables_fixed_point_repr {S : Type} [LinearOrder S] (dexp : ℚ → ℚ) (ONE : ℤ)
    (maxHiVal : ℚ) (numHiTerms : ℕ) (score : List LoTerm → S) (fuel : ℕ)
    (hONE : 0 ≤ ONE) :
    (∀ n (hn : n < (hiTermsBuild dexp ONE maxHiVal numHiTerms).length),
        ((hiTermsBuild dexp ONE maxHiVal numHiTerms).get ⟨n, hn⟩).val
            = pyInt (ONE * (maxHiVal / 2 ^ n)) ∧
          ((hiTermsBuild dexp ONE maxHiVal numHiTerms).get ⟨n, hn⟩).exp
            = pyInt (ONE * dexp (maxHiVal / 2 ^ n))) ∧
      ∀ tbl, lowTermSearch ONE score fuel = some tbl →
        ∀ k (hk : k < tbl.length),
          (tbl.get ⟨k, hk⟩).den = ONE * (2 * (k : ℤ) + 2) ∧
            (tbl.get ⟨k, hk⟩).num
              = pyInt (((ONE * (2 * (k : ℤ) + 2) : ℤ) : ℚ) / (((2 * (k : ℤ) + 1) : ℤ) : ℚ)) := by
  constructor
  · intro n hn
    rw [hiTermsBuild_get]
    exact ⟨rfl, rfl⟩
  · intro tbl h k hk
    obtain ⟨M, hM, rfl⟩ := lowTermSearch_closed ONE score fuel tbl h
    rw [loTable_get]
    refine ⟨rfl, ?_⟩
    show Int.fdiv (ONE * (2 * (k : ℤ) + 2)) (2 * (k : ℤ) + 1) = _
    exact fdiv_eq_pyInt (by positivity) (by positivity)

/-- Witness for C5 at `dexp = const 1`, `ONE = 1`, a constant oracle and the
seed result. -/
theorem tables_fixed_point_repr_witness :
    (∀ n (hn : n < (hiTermsBuild (fun _ => 1) 1 1 0).length),
        ((hiTermsBuild (fun _ => 1) 1 1 0).get ⟨n, hn⟩).val
            = pyInt (1 * ((1 : ℚ) / 2 ^ n)) ∧
          ((hiTermsBuild (fun _ => 1) 1 1 0).get ⟨n, hn⟩).exp
            = pyInt (1 * (fun _ => (1 : ℚ)) ((1 : ℚ) / 2 ^ n))) ∧
      ∀ tbl, lowTermSearch 1 (fun _ => (0 : ℤ)) 1 = some tbl →
        ∀ k (hk : k < tbl.length),
          (tbl.get ⟨k, hk⟩).den = 1 * (2 * (k : ℤ) + 2) ∧
            (tbl.get ⟨k, hk⟩).num
              = pyInt (((1 * (2 * (k : ℤ) + 2) : ℤ) : ℚ) / (((2 * (k : ℤ) + 1) : ℤ) : ℚ)) :=
  tables_fixed_point_repr (fun _ => 1) 1 1 0 (fun _ => (0 : ℤ)) 1 (by norm_num)

/-- C8: the `MAX_VAL` the calibration computes and feeds to the oracle is
always `hiTerms[0].exp - 1`, and that first entry's `exp` is the truncated
fixed-point exponential of the undivided maximum high-term value. -/
theorem calibrate_maxVal_spec {S : Type} [LinearOrder S] (dexp : ℚ → ℚ)
    (lg : ℤ → List HiTerm → List LoTerm → ℤ → S) (fuel : ℕ) (cfg : Config) :
    ∃ h0, (calibrate dexp lg fuel cfg).hiTerms.head? = some h0 ∧
      (calibrate dexp lg fuel cfg).maxVal = h0.exp - 1 ∧
      h0.exp = pyInt ((2 ^ cfg.PRECISION : ℤ) * dexp cfg.LOG_MAX_HI_TERM_VAL) := by
  have hbuild : (calibrate dexp lg fuel cfg).hiTerms
      = (List.range (cfg.LOG_NUM_OF_HI_TERMS + 1)).map
          (hiTermAt dexp (2 ^ cfg.PRECISION) cfg.LOG_MAX_HI_TERM_VAL) :=
    hiTermsBuild_eq_map dexp (2 ^ cfg.PRECISION) cfg.LOG_MAX_HI_TERM_VAL cfg.LOG_NUM_OF_HI_TERMS
  refine ⟨hiTermAt dexp (2 ^ cfg.PRECISION) cfg.LOG_MAX_HI_TERM_VAL 0, ?_, ?_, ?_⟩
  · rw [hbuild, List.range_succ_eq_map]
    simp
  · show (calibrate dexp lg fuel cfg).hiTerms.headI.exp - 1 = _
    rw [hbuild, List.range_succ_eq_map]
    simp [List.headI]
  · show pyInt ((2 ^ cfg.PRECISION : ℤ) * dexp (cfg.LOG_MAX_HI_TERM_VAL / 2 ^ (0 : ℕ))) = _
    norm_num

/-! Bounds on the real exponential used to validate the C4 counterexample. -/

lemma exp_half_bounds : (1.64 : ℝ) < Real.exp (1 / 2) ∧ Real.exp (1 / 2) < 1.65 := by
  have hsq : Real.exp (1 / 2) * Real.exp (1 / 2) = Real.exp 1 := by
    rw [← Real.exp_add]; norm_num
  have hpos := Real.exp_pos (1 / 2 : ℝ)
  constructor
  · by_contra hx
    push_neg at hx
    have h2 : Real.exp (1 / 2) * Real.exp (1 / 2) ≤ 1.64 * 1.64 :=
      mul_le_mul hx hx hpos.le (by norm_num)
    rw [hsq] at h2
    nlinarith [Real.exp_one_gt_d9]
  · by_contra hx
    push_neg at hx
    have h2 : (1.65 : ℝ) * 1.65 ≤ Real.exp (1 / 2) * Real.exp (1 / 2) :=
      mul_le_mul hx hx (by norm_num) hpos.le
    rw [hsq] at h2
    nlinarith [Real.exp_one_lt_d9]

lemma exp_quarter_bounds : (1.28 : ℝ) < Real.exp (1 / 4) ∧ Real.exp (1 / 4) < 1.29 := by
  have hsq : Real.exp (1 / 4) * Real.exp (1 / 4) = Real.exp (1 / 2) := by
    rw [← Real.exp_add]; norm_num
  have hpos := Real.exp_pos (1 / 4 : ℝ)
  obtain ⟨hl, hr⟩ := exp_half_bounds
  constructor
  · by_contra hx
    push_neg at hx
    have h2 : Real.exp (1 / 4) * Real.exp (1 / 4) ≤ 1.28 * 1.28 :=
      mul_le_mul hx hx hpos.le (by norm_num)
    rw [hsq] at h2
    nlinarith
  · by_contra hx
    push_neg at hx
    have h2 : (1.29 : ℝ) * 1.29 ≤ Real.exp (1 / 4) * Real.exp (1 / 4) :=
      mul_le_mul hx hx (by norm_num) hpos.le
    rw [hsq] at h2
    nlinarith

lemma dexpC4_exp1 : (hiTermAt dexpC4 1 1 1).exp = 1 := by
  show pyInt (1 * dexpC4 ((1 : ℚ) / 2 ^ (1 : ℕ))) = 1
  have e : ((1 : ℚ) / 2 ^ (1 : ℕ)) = 1 / 2 := by norm_num
  rw [e]
  have hd : dexpC4 (1 / 2) = 1648721270 / 1000000000 := by
    unfold dexpC4
    rw [if_neg (by norm_num), if_pos rfl]
  rw [hd]
  exact pyInt_eq_int (by norm_num) (by norm_num) (by norm_num)

lemma dexpC4_exp2 : (hiTermAt dexpC4 1 1 2).exp = 1 := by
  show pyInt (1 * dexpC4 ((1 : ℚ) / 2 ^ (2 : ℕ))) = 1
  have e : ((1 : ℚ) / 2 ^ (2 : ℕ)) = 1 / 4 := by norm_num
  rw [e]
  have hd : dexpC4 (1 / 4) = 1284025416 / 1000000000 := by
    unfold dexpC4
    rw [if_neg (by norm_num), if_neg (by norm_num), if_pos rfl]
  rw [hd]
  exact pyInt_eq_int (by norm_num) (by norm_num) (by norm_num)

lemma dexpC4_close : ∀ n : ℕ, n ≤ 2 →
    |(dexpC4 ((1 : ℚ) / 2 ^ n) : ℝ) - Real.exp (((1 : ℚ) / 2 ^ n : ℚ) : ℝ)| ≤ 1 / 100 := by
  intro n hn
  interval_cases n
  · have e : ((1 : ℚ) / 2 ^ (0 : ℕ)) = 1 := by norm_num
    rw [e]
    have hd : dexpC4 1 = 2718281828 / 1000000000 := by
      unfold dexpC4; rw [if_pos rfl]
    rw [hd]
    have hc : ((2718281828 / 1000000000 : ℚ) : ℝ) = 2718281828 / 1000000000 := by push_cast; ring
    rw [hc, show (((1 : ℚ) : ℝ)) = 1 by norm_num, abs_le]
    constructor
    · nlinarith [Real.exp_one_lt_d9]
    · nlinarith [Real.exp_one_gt_d9]
  · have e : ((1 : ℚ) / 2 ^ (1 : ℕ)) = 1 / 2 := by norm_num
    rw [e]
    have hd : dexpC4 (1 / 2) = 1648721270 / 1000000000 := by
      unfold dexpC4; rw [if_neg (by norm_num), if_pos rfl]
    rw [hd]
    have hc : ((1648721270 / 1000000000 : ℚ) : ℝ) = 1648721270 / 1000000000 := by push_cast; ring
    have hc2 : (((1 / 2 : ℚ)) : ℝ) = 1 / 2 := by push_cast; ring
    rw [hc, hc2, abs_le]
    obtain ⟨hl, hr⟩ := exp_half_bounds
    constructor
    · nlinarith
    · nlinarith
  · have e : ((1 : ℚ) / 2 ^ (2 : ℕ)) = 1 / 4 := by norm_num
    rw [e]
    have hd : dexpC4 (1 / 4) = 1284025416 / 1000000000 := by
      unfold dexpC4; rw [if_neg (by norm_num), if_neg (by norm_num), if_pos rfl]
    rw [hd]
    have hc : ((1284025416 / 1000000000 : ℚ) : ℝ) = 1284025416 / 1000000000 := by push_cast; ring
    have hc2 : (((1 / 4 : ℚ)) : ℝ) = 1 / 4 := by push_cast; ring
    rw [hc, hc2, abs_le]
    obtain ⟨hl, hr⟩ := exp_quarter_bounds
    constructor
    · nlinarith
    · nlinarith

/-- C4 counterexample: strict decrease of the stored `exp` fields fails for
some valid configuration.  At `ONE = 1`, `maxHiVal = 1`, `numHiTerms = 2`,
any decimal exponential within `1/100` of the mathematical one (the script's
100-digit `Decimal.exp` is far closer, as is the explicit nine-digit stand-in
`dexpC4`) makes entries 1 and 2 both store `exp = 1`: truncation collapses
`e^(1/2) ≈ 1.6487` and `e^(1/4) ≈ 1.2840` to the same fixed-point integer. -/
theorem hiTerms_exp_strict_decrease_refuted :
    ¬ (∀ (dexp : ℚ → ℚ) (ONE : ℤ) (maxHiVal : ℚ) (numHiTerms : ℕ),
        0 < ONE → 0 < maxHiVal →
        (∀ n : ℕ, n ≤ numHiTerms →
          |(dexp (maxHiVal / 2 ^ n) : ℝ) - Real.exp ((maxHiVal / 2 ^ n : ℚ) : ℝ)| ≤ 1 / 100) →
        ∀ i j (hi : i < (hiTermsBuild dexp ONE maxHiVal numHiTerms).length)
          (hj : j < (hiTermsBuild dexp ONE maxHiVal numHiTerms).length), i < j →
          ((hiTermsBuild dexp ONE maxHiVal numHiTerms).get ⟨j, hj⟩).exp
            < ((hiTermsBuild dexp ONE maxHiVal numHiTerms).get ⟨i, hi⟩).exp) := by
  intro h
  have hlen : (hiTermsBuild dexpC4 1 1 2).length = 3 := hiTermsBuild_length dexpC4 1 1 2
  have hi1 : (1 : ℕ) < (hiTermsBuild dexpC4 1 1 2).length := by rw [hlen]; omega
  have hi2 : (2 : ℕ) < (hiTermsBuild dexpC4 1 1 2).length := by rw [hlen]; omega
  have hlt := h dexpC4 1 1 2 one_pos one_pos dexpC4_close 1 2 hi1 hi2 (by omega)
  rw [hiTermsBuild_get, hiTermsBuild_get, dexpC4_exp2, dexpC4_exp1] at hlt
  exact lt_irrefl 1 hlt

/-- C7: the whole computation is a pure function of the configuration
constants, the decimal exponential, the oracle and the loop fuel: two runs
with identical inputs produce identical output line lists (hence byte-identical
text).  The embedding has no other state, mirroring the script's lack of
nondeterminism given a deterministic oracle. -/
theorem program_deterministic {S : Type} [LinearOrder S] (dexp1 dexp2 : ℚ → ℚ)
    (lg1 lg2 : ℤ → List HiTerm → List LoTerm → ℤ → S) (fuel1 fuel2 : ℕ)
    (cfg1 cfg2 : Config) (hdexp : dexp1 = dexp2) (hlg : lg1 = lg2) (hfuel : fuel1 = fuel2)
    (hcfg : cfg1 = cfg2) :
    program dexp1 lg1 fuel1 cfg1 = program dexp2 lg2 fuel2 cfg2 := by
  subst hdexp hlg hfuel hcfg
  rfl

/-- Witness for C7 at a concrete configuration and oracle. -/
theorem program_deterministic_witness :
    program (fun q => q) (fun _ _ _ _ => (0 : ℤ)) 1 ⟨0, 1, 1⟩
      = program (fun q => q) (fun _ _ _ _ => (0 : ℤ)) 1 ⟨0, 1, 1⟩ :=
  program_deterministic (fun q => q) (fun q => q) (fun _ _ _ _ => (0 : ℤ))
    (fun _ _ _ _ => (0 : ℤ)) 1 1 ⟨0, 1, 1⟩ ⟨0, 1, 1⟩ rfl rfl rfl rfl

/-- Helper for C10: emission with a single high term fails at the first
column-width computation (`max` over the empty `hiTerms[1:]`). -/
lemma emit_singleton (x : HiTerm) (lo : List LoTerm) : emit [x] lo = none := rfl

/-- C10: with `LOG_NUM_OF_HI_TERMS = 0` the high-term table has only its
index-0 entry, the width computation `max([len(hex(t.val)) for t in
hiTerms[1:]])` raises on the empty sequence before anything is printed, and
the program emits no output lines at all (regardless of oracle and fuel). -/
theorem program_zero_hi_terms_no_output {S : Type} [LinearOrder S] (dexp : ℚ → ℚ)
    (lg : ℤ → List HiTerm → List LoTerm → ℤ → S) (fuel : ℕ) (PREC : ℕ) (maxHiVal : ℚ) :
    program dexp lg fuel ⟨PREC, 0, maxHiVal⟩ = none := by
  obtain ⟨x, hx⟩ := List.length_eq_one.mp
    (hiTermsBuild_length dexp (2 ^ PREC) maxHiVal 0)
  show (match (calibrate dexp lg fuel ⟨PREC, 0, maxHiVal⟩).loTerms with
    | none => none
    | some lo => emit (calibrate dexp lg fuel ⟨PREC, 0, maxHiVal⟩).hiTerms lo) = none
  cases hcase : (calibrate dexp lg fuel ⟨PREC, 0, maxHiVal⟩).loTerms with
  | none => rfl
  | some lo =>
    show emit (hiTermsBuild dexp (2 ^ PREC) maxHiVal 0) lo = none
    rw [hx]
    exact emit_singleton x lo

/-- C9 (amended): a successful emission consists, in order, of exactly one
upper-bound assertion line built from `hiTerms[0].exp`, one conditional
range-reduction line per remaining `HiTerm` (numeric literals hex-padded to
the widest value of their column), one blank separator line, one lower-bound
assertion line, exactly two setup statements, and one accumulation line per
`LoTerm` (again column-padded), for `numHiTerms + |LoTerms| + 5` lines in
total.  (The frozen claim instead places the lower-bound assertion directly
after the conditionals and counts three setup statements; the blank line in
between refutes that ordering — see the counterexample.) -/
theorem emit_layout (h0 : HiTerm) (hiRest : List HiTerm) (lo : List LoTerm)
    (out : List String) (h : emit (h0 :: hiRest) lo = some out) :
    ∃ hvM heM lnM ldM lastT,
      pyMax (hiRest.map fun t => pyHexLen t.val) = some hvM ∧
      pyMax (hiRest.map fun t => pyHexLen t.exp) = some heM ∧
      pyMax (lo.map fun t => pyHexLen t.num) = some lnM ∧
      pyMax (lo.map fun t => pyHexLen t.den) = some ldM ∧
      lo.getLast? = some lastT ∧
      out = upperLine h0 ::
        (hiRest.map (condLine hvM heM) ++
          "" :: "        assert(x >= FIXED_ONE);" ::
          "        z = y = x - FIXED_ONE;" ::
          "        w = y * y / FIXED_ONE;" ::
          (lo.dropLast.map (accLine lnM ldM) ++ [accLineLast lnM ldM lastT])) ∧
      (hiRest.map (condLine hvM heM)).length = hiRest.length ∧
      (lo.dropLast.map (accLine lnM ldM)).length + 1 = lo.length ∧
      out.length = hiRest.length + lo.length + 5 := by
  rw [show emit (h0 :: hiRest) lo
      = (match pyMax (hiRest.map fun t => pyHexLen t.val),
          pyMax (hiRest.map fun t => pyHexLen t.exp),
          pyMax (lo.map fun t => pyHexLen t.num),
          pyMax (lo.map fun t => pyHexLen t.den),
          lo.getLast? with
        | some hvM, some heM, some lnM, some ldM, some lastT =>
          some (upperLine h0 ::
            (hiRest.map (condLine hvM heM) ++
              "" :: "        assert(x >= FIXED_ONE);" ::
              "        z = y = x - FIXED_ONE;" ::
              "        w = y * y / FIXED_ONE;" ::
              (lo.dropLast.map (accLine lnM ldM) ++ [accLineLast lnM ldM lastT])))
        | _, _, _, _, _ => none) from rfl] at h
  rcases e1 : pyMax (hiRest.map fun t => pyHexLen t.val) with _ | hvM
  · rw [e1] at h; simp at h
  rcases e2 : pyMax (hiRest.map fun t => pyHexLen t.exp) with _ | heM
  · rw [e1, e2] at h; simp at h
  rcases e3 : pyMax (lo.map fun t => pyHexLen t.num) with _ | lnM
  · rw [e1, e2, e3] at h; simp at h
  rcases e4 : pyMax (lo.map fun t => pyHexLen t.den) with _ | ldM
  · rw [e1, e2, e3, e4] at h; simp at h
  rcases e5 : lo.getLast? with _ | lastT
  · rw [e1, e2, e3, e4, e5] at h; simp at h
  rw [e1, e2, e3, e4, e5] at h
  simp only [Option.some.injEq] at h
  have hlo : lo ≠ [] := by
    intro hnil
    rw [hnil] at e5
    simp at e5
  have hlolen : 1 ≤ lo.length := List.length_pos.mpr hlo
  refine ⟨hvM, heM, lnM, ldM, lastT, e1, e2, e3, e4, rfl, h.symm, by simp, ?_, ?_⟩
  · rw [List.length_map, List.length_dropLast]
    omega
  · rw [← h]
    simp only [List.length_cons, List.length_append, List.length_map, List.length_dropLast,
      List.length_nil]
    omega

/-- Witness for C9 (amended) at a concrete two-entry high table and one-entry
low table. -/
theorem emit_layout_witness :
    ∃ hvM heM lnM ldM lastT,
      pyMax (([⟨1, 2⟩] : List HiTerm).map fun t => pyHexLen t.val) = some hvM ∧
      pyMax (([⟨1, 2⟩] : List HiTerm).map fun t => pyHexLen t.exp) = some heM ∧
      pyMax (([⟨2, 2⟩] : List LoTerm).map fun t => pyHexLen t.num) = some lnM ∧
      pyMax (([⟨2, 2⟩] : List LoTerm).map fun t => pyHexLen t.den) = some ldM ∧
      ([⟨2, 2⟩] : List LoTerm).getLast? = some lastT ∧
      (["        assert(x < 0x3);",
        "        if (x >= 0x2) \x7bres += 0x1; x = x * FIXED_ONE / 0x2;\x7d",
        "",
        "        assert(x >= FIXED_ONE);",
        "        z = y = x - FIXED_ONE;",
        "        w = y * y / FIXED_ONE;",
        "        res += z * (0x2 - y) / 0x2;"] : List String)
        = upperLine ⟨1, 3⟩ ::
          (([⟨1, 2⟩] : List HiTerm).map (condLine hvM heM) ++
            "" :: "        assert(x >= FIXED_ONE);" ::
            "        z = y = x - FIXED_ONE;" ::
            "        w = y * y / FIXED_ONE;" ::
            (([⟨2, 2⟩] : List LoTerm).dropLast.map (accLine lnM ldM)
              ++ [accLineLast lnM ldM lastT])) ∧
      (([⟨1, 2⟩] : List HiTerm).map (condLine hvM heM)).length
        = ([⟨1, 2⟩] : List HiTerm).length ∧
      (([⟨2, 2⟩] : List LoTerm).dropLast.map (accLine lnM ldM)).length + 1
        = ([⟨2, 2⟩] : List LoTerm).length ∧
      (["        assert(x < 0x3);",
        "        if (x >= 0x2) \x7bres += 0x1; x = x * FIXED_ONE / 0x2;\x7d",
        "",
        "        assert(x >= FIXED_ONE);",
        "        z = y = x - FIXED_ONE;",
        "        w = y * y / FIXED_ONE;",
        "        res += z * (0x2 - y) / 0x2;"] : List String).length
        = ([⟨1, 2⟩] : List HiTerm).length + ([⟨2, 2⟩] : List LoTerm).length + 5 :=
  emit_layout ⟨1, 3⟩ [⟨1, 2⟩] [⟨2, 2⟩]
    ["        assert(x < 0x3);",
     "        if (x >= 0x2) \x7bres += 0x1; x = x * FIXED_ONE / 0x2;\x7d",
     "",
     "        assert(x >= FIXED_ONE);",
     "        z = y = x - FIXED_ONE;",
     "        w = y * y / FIXED_ONE;",
     "        res += z * (0x2 - y) / 0x2;"]
    (by decide)

/-- C9 counterexample: the frozen ordering — upper assertion, conditionals,
then immediately the lower-bound assertion followed by three setup statements
and the accumulation lines — does not hold: for the two-entry high table and
one-entry low table, line 2 of the output is the blank separator, not the
lower-bound assertion that the claimed decomposition requires at that
position. -/
theorem emit_layout_claim_refuted :
    ¬ (∀ (h0 : HiTerm) (hiRest : List HiTerm) (lo : List LoTerm) (out : List String),
        emit (h0 :: hiRest) lo = some out →
        ∃ conds setups accs : List String,
          conds.length = hiRest.length ∧ setups.length = 3 ∧ accs.length = lo.length ∧
          out = upperLine h0 ::
            (conds ++ "        assert(x >= FIXED_ONE);" :: (setups ++ accs))) := by
  intro h
  obtain ⟨conds, setups, accs, hc, hs, ha, heq⟩ :=
    h ⟨1, 3⟩ [⟨1, 2⟩] [⟨2, 2⟩]
      ["        assert(x < 0x3);",
       "        if (x >= 0x2) \x7bres += 0x1; x = x * FIXED_ONE / 0x2;\x7d",
       "",
       "        assert(x >= FIXED_ONE);",
       "        z = y = x - FIXED_ONE;",
       "        w = y * y / FIXED_ONE;",
       "        res += z * (0x2 - y) / 0x2;"]
      (by decide)
  obtain ⟨c, rfl⟩ := List.length_eq_one.mp hc
  simp only [List.cons_append, List.nil_append, List.cons.injEq] at heq
  exact absurd heq.2.2.1 (by decide)
